import Mathlib

/-!
Shallow embedding of the murmuration flocking-simulation core
(TypeScript, three.js): per-agent state (`Entity`), the numeric
integrator (`Entity.update`), the two-tier neighbor perception query
(`EntityManager.findNearbyEntities`), the per-tick orchestration
(`EntityManager.update`), population creation / randomization, and the
instanced-mesh transform output (`EntityManager.updateInstancedMesh`).

JavaScript numbers are modelled by real numbers; three.js vector and
quaternion operations are embedded componentwise following the three.js
sources (`Vector3.length`, `Vector3.normalize` with its zero-length
guard, `Quaternion.setFromUnitVectors`, `Quaternion.normalize`).
-/

namespace Murmuration

/-- Three-component vector, the model of `THREE.Vector3`. -/
structure Vec3 where
  x : ℝ
  y : ℝ
  z : ℝ

namespace Vec3

/-- Componentwise vector addition (`Vector3.add`). -/
def vadd (a b : Vec3) : Vec3 := ⟨a.x + b.x, a.y + b.y, a.z + b.z⟩

/-- Componentwise vector subtraction (`Vector3.sub`). -/
def vsub (a b : Vec3) : Vec3 := ⟨a.x - b.x, a.y - b.y, a.z - b.z⟩

/-- Scalar multiplication (`Vector3.multiplyScalar`). -/
def smul (c : ℝ) (v : Vec3) : Vec3 := ⟨c * v.x, c * v.y, c * v.z⟩

/-- Dot product (`Vector3.dot`). -/
def dot (a b : Vec3) : ℝ := a.x * b.x + a.y * b.y + a.z * b.z

/-- Squared length (`Vector3.lengthSq`). -/
def lengthSq (v : Vec3) : ℝ := v.x * v.x + v.y * v.y + v.z * v.z

/-- Euclidean length (`Vector3.length`). -/
noncomputable def length (v : Vec3) : ℝ := Real.sqrt v.lengthSq

/-- Normalization (`Vector3.normalize`), which divides by
`this.length() || 1`: a zero-length vector is left unchanged. -/
noncomputable def normalize (v : Vec3) : Vec3 :=
  if length v = 0 then v else smul (1 / length v) v

/-- Euclidean distance (`Vector3.distanceTo`). -/
noncomputable def distanceTo (a b : Vec3) : ℝ := length (vsub a b)

/-- Zero vector. -/
def zero : Vec3 := ⟨0, 0, 0⟩

/-- World up vector, used for orienting meshes. -/
def up : Vec3 := ⟨0, 1, 0⟩

end Vec3

/-- Quaternion, the model of `THREE.Quaternion` (components x, y, z, w). -/
structure Quat where
  x : ℝ
  y : ℝ
  z : ℝ
  w : ℝ

namespace Quat

/-- Identity quaternion (`Quaternion.identity`, also the constructor default). -/
def qId : Quat := ⟨0, 0, 0, 1⟩

/-- Quaternion length (`Quaternion.length`). -/
noncomputable def qlength (q : Quat) : ℝ :=
  Real.sqrt (q.x * q.x + q.y * q.y + q.z * q.z + q.w * q.w)

/-- Quaternion normalization (`Quaternion.normalize`): a zero-length
quaternion becomes the identity, otherwise each component is divided by
the length. -/
noncomputable def qnormalize (q : Quat) : Quat :=
  if qlength q = 0 then qId
  else ⟨q.x / qlength q, q.y / qlength q, q.z / qlength q, q.w / qlength q⟩

/-- JavaScript `Number.EPSILON`, used by `Quaternion.setFromUnitVectors`. -/
noncomputable def jsEpsilon : ℝ := 1 / 2 ^ 52

/-- Model of `Quaternion.setFromUnitVectors(vFrom, vTo)` from three.js:
build the rotation taking unit vector `vFrom` to unit vector `vTo`. -/
noncomputable def setFromUnitVectors (vFrom vTo : Vec3) : Quat :=
  let r := Vec3.dot vFrom vTo + 1
  if r < jsEpsilon then
    if |vFrom.x| > |vFrom.z| then qnormalize ⟨-vFrom.y, vFrom.x, 0, 0⟩
    else qnormalize ⟨0, -vFrom.z, vFrom.y, 0⟩
  else
    qnormalize ⟨vFrom.y * vTo.z - vFrom.z * vTo.y,
                vFrom.z * vTo.x - vFrom.x * vTo.z,
                vFrom.x * vTo.y - vFrom.y * vTo.x, r⟩

end Quat

/-- Variable store of an agent (`Map<string, number>` in insertion order). -/
def VarMap : Type := List (String × ℝ)

/-- Model of `Map.prototype.set`: overwrite the entry of an existing key in
place, otherwise append the new entry. -/
def mapSet (m : VarMap) (k : String) (v : ℝ) : VarMap :=
  match m with
  | [] => [(k, v)]
  | (k1, v1) :: t => if k1 = k then (k, v) :: t else (k1, v1) :: mapSet t k v

/-- Model of `Map.prototype.get`: the value of the first entry with the key. -/
def mapGet (m : VarMap) (k : String) : Option ℝ :=
  match m with
  | [] => none
  | (k1, v1) :: t => if k1 = k then some v1 else mapGet t k

/-- Keys of a variable store. -/
def mapKeys (m : VarMap) : List String := m.map Prod.fst

/-- Model of `Entity.updateRandomVariables`: `newVariables.forEach((value,
key) => this.randomVariables.set(key, value))`, i.e. a left fold of `set`
over the patch in insertion order. -/
def mergeVars (base patch : VarMap) : VarMap :=
  patch.foldl (fun acc kv => mapSet acc kv.1 kv.2) base

/-- Agent, the model of the `Entity` class: position, velocity, the named
random-variable store, and its (non-instanced) mesh transform. -/
structure Entity where
  position : Vec3
  velocity : Vec3
  randomVariables : VarMap
  meshPosition : Vec3
  meshQuaternion : Quat

/-- Model of the `Entity` constructor: clones the given vectors, starts
with an empty variable store, and copies the position to the mesh. -/
def mkEntity (position velocity : Vec3) : Entity :=
  { position := position, velocity := velocity, randomVariables := [],
    meshPosition := position, meshQuaternion := Quat.qId }

/-- Snapshot returned by `Entity.getState` (the `EntityState` interface):
clones of position and velocity and a copy of the variable map. -/
structure EntityState where
  position : Vec3
  velocity : Vec3
  randomVariables : VarMap

/-- Model of `Entity.getState`. -/
def getState (e : Entity) : EntityState :=
  { position := e.position, velocity := e.velocity,
    randomVariables := e.randomVariables }

/-- Speed cap constant of `Entity.update` (`maxSpeed`). -/
def maxSpeed : ℝ := 50

/-- Model of `Entity.update(acceleration, deltaTime)`: add
`acceleration * deltaTime` to the velocity; if the velocity length
exceeds `maxSpeed`, normalize and rescale it to `maxSpeed`; advance the
position by `velocity * deltaTime`; copy the position to the mesh; and
re-orient the mesh from the velocity direction only when the velocity
length exceeds `0.1`. -/
noncomputable def entityUpdate (e : Entity) (acceleration : Vec3)
    (deltaTime : ℝ) : Entity :=
  let v1 := Vec3.vadd e.velocity (Vec3.smul deltaTime acceleration)
  let v2 := if v1.length > maxSpeed then Vec3.smul maxSpeed v1.normalize else v1
  let p1 := Vec3.vadd e.position (Vec3.smul deltaTime v2)
  { position := p1, velocity := v2, randomVariables := e.randomVariables,
    meshPosition := p1,
    meshQuaternion :=
      if v2.length > 0.1 then Quat.setFromUnitVectors Vec3.up v2.normalize
      else e.meshQuaternion }

/-- Neighbor record (`NearbyEntity` interface): cloned position and
velocity of the other agent and its distance to the observer. -/
structure NearbyEntity where
  position : Vec3
  velocity : Vec3
  distance : ℝ

/-- Terrain surface kind (`TerrainInfo.type`). -/
inductive TerrainType where
  | field
  | lake
  | hedgerow
  | tree

/-- Terrain sample (`TerrainInfo` interface). -/
structure TerrainInfo where
  height : ℝ
  type : TerrainType
  normal : Vec3

/-- Policy input (`MovementInput` interface). -/
structure MovementInput where
  currentState : EntityState
  nearbyEntities : List NearbyEntity
  terrainAhead : List TerrainInfo
  deltaTime : ℝ

/-- Policy output (`MovementOutput` interface); the optional variable
patch is `shouldUpdateRandomVariables`. -/
structure MovementOutput where
  acceleration : Vec3
  shouldUpdateRandomVariables : Option VarMap

/-- The pluggable movement policy (`MovementFunction` type). -/
def MovementFunction : Type := MovementInput → MovementOutput

/-- Close-range threshold of the perception query (`closeRange = 20`). -/
def closeRange : ℝ := 20

/-- The `NearbyEntity` record built for the other agent at `otherPosition`
inside the scan loop of `findNearbyEntities`. -/
noncomputable def mkNearby (pos : Vec3) (e : Entity) : NearbyEntity :=
  { position := e.position, velocity := e.velocity,
    distance := Vec3.distanceTo pos e.position }

/-- Ordering of neighbor records used by the two `sort` calls of
`findNearbyEntities` (`(a, b) => a.distance - b.distance`). -/
def distLE (a b : NearbyEntity) : Prop := a.distance ≤ b.distance

noncomputable instance : DecidableRel distLE :=
  fun a b => Real.decidableLE a.distance b.distance

instance : IsTotal NearbyEntity distLE := ⟨fun a b => le_total a.distance b.distance⟩

instance : IsTrans NearbyEntity distLE := ⟨fun _ _ _ => le_trans⟩

/-- Scan phase of `findNearbyEntities`: every agent other than the one at
`excludeIndex` whose distance to `pos` is within the perception radius
`R`, as a `NearbyEntity`, in index order. -/
noncomputable def inRangeCandidates (R : ℝ) (pos : Vec3) (excludeIndex : ℕ)
    (es : List Entity) : List NearbyEntity :=
  es.enum.filterMap fun ie =>
    if ie.1 = excludeIndex then none
    else if Vec3.distanceTo pos ie.2.position ≤ R then some (mkNearby pos ie.2)
    else none

/-- The `closeNeighbors` list of `findNearbyEntities`: in-range agents
within `closeRange`. -/
noncomputable def closeTier (R : ℝ) (pos : Vec3) (excludeIndex : ℕ)
    (es : List Entity) : List NearbyEntity :=
  (inRangeCandidates R pos excludeIndex es).filter
    fun n => decide (n.distance ≤ closeRange)

/-- The `distantBirds` list of `findNearbyEntities`: in-range agents
beyond `closeRange`. -/
noncomputable def outerTier (R : ℝ) (pos : Vec3) (excludeIndex : ℕ)
    (es : List Entity) : List NearbyEntity :=
  (inRangeCandidates R pos excludeIndex es).filter
    fun n => decide (¬ n.distance ≤ closeRange)

/-- Model of `EntityManager.findNearbyEntities(position, excludeIndex)`
with perception radius `R` and cap `K` (`maxEntityPerception`): sort both
tiers ascending by distance (the JavaScript comparator
`(a, b) => a.distance - b.distance`; `Array.prototype.sort` is stable and
is modelled by the stable `insertionSort`), take at most `min K 7` close
neighbors, then fill the remaining `K - taken` slots from the outer
tier. -/
noncomputable def findNearbyEntities (R : ℝ) (K : ℕ) (pos : Vec3)
    (excludeIndex : ℕ) (es : List Entity) : List NearbyEntity :=
  let closeSorted := (closeTier R pos excludeIndex es).insertionSort distLE
  let distantSorted := (outerTier R pos excludeIndex es).insertionSort distLE
  let maxCloseNeighbors := min K 7
  let firstPart := closeSorted.take maxCloseNeighbors
  let remainingSlots := K - firstPart.length
  firstPart ++ distantSorted.take remainingSlots

/-- Model of `EntityManager.getTerrainAhead`: the stub returns five
identical samples. -/
def getTerrainAhead (_position _velocity : Vec3) : List TerrainInfo :=
  List.replicate 5 { height := 0, type := TerrainType.field,
                     normal := ⟨0, 1, 0⟩ }

/-- Merge of an optional variable patch into an agent, as done at the end
of the per-agent body of `EntityManager.update` (the
`if (output.shouldUpdateRandomVariables)` guard around
`entity.updateRandomVariables`). -/
def applyPatch (e : Entity) : Option VarMap → Entity
  | none => e
  | some p => { e with randomVariables := mergeVars e.randomVariables p }

/-- One iteration of the `forEach` loop of `EntityManager.update`, at
index `i`: snapshot the agent, query neighbors and terrain against the
live entity list, invoke the policy, integrate, merge the patch, and
store the updated agent back at index `i`. -/
noncomputable def tickStep (mf : MovementFunction) (R : ℝ) (K : ℕ)
    (dt : ℝ) (es : List Entity) (i : ℕ) : List Entity :=
  match es[i]? with
  | none => es
  | some e =>
    let state := getState e
    let nearby := findNearbyEntities R K state.position i es
    let terrain := getTerrainAhead state.position state.velocity
    let out := mf { currentState := state, nearbyEntities := nearby,
                    terrainAhead := terrain, deltaTime := dt }
    es.set i (applyPatch (entityUpdate e out.acceleration dt)
      out.shouldUpdateRandomVariables)

/-- The first `n` iterations of the `forEach` loop of
`EntityManager.update`, applied in index order to the live entity list. -/
noncomputable def tickLoop (mf : MovementFunction) (R : ℝ) (K : ℕ)
    (dt : ℝ) (es : List Entity) : ℕ → List Entity
  | 0 => es
  | n + 1 => tickStep mf R K dt (tickLoop mf R K dt es n) n

/-- Model of `EntityManager.update(deltaTime)` restricted to the entity
array: run the loop over every index. -/
noncomputable def managerUpdate (mf : MovementFunction) (R : ℝ) (K : ℕ)
    (dt : ℝ) (es : List Entity) : List Entity :=
  tickLoop mf R K dt es es.length

/-- Orientation written into the instanced mesh for one agent by
`EntityManager.updateInstancedMesh`: derived from the normalized velocity
when the speed exceeds `0.1`, otherwise `quaternion.identity()`. -/
noncomputable def renderQuaternion (v : Vec3) : Quat :=
  if v.length > 0.1 then Quat.setFromUnitVectors Vec3.up v.normalize
  else Quat.qId

/-- Model of `EntityManager.updateInstancedMesh`: the per-index transform
(position and orientation) written into the instanced mesh. -/
noncomputable def updateInstancedMesh (es : List Entity) :
    List (Vec3 × Quat) :=
  es.map fun e => (e.position, renderQuaternion e.velocity)

/-- Random position of `EntityManager.createEntities`, built from three
consecutive `Math.random()` samples. -/
noncomputable def randomPosition (terrainSize r0 r1 r2 : ℝ) : Vec3 :=
  ⟨(r0 - 0.5) * terrainSize * 0.8, 20 + r1 * 80, (r2 - 0.5) * terrainSize * 0.8⟩

/-- Random velocity of `EntityManager.createEntities`, built from three
consecutive `Math.random()` samples. -/
noncomputable def randomVelocity (r3 r4 r5 : ℝ) : Vec3 :=
  ⟨(r3 - 0.5) * 10, (r4 - 0.5) * 5, (r5 - 0.5) * 10⟩

/-- The `count` agents pushed by `EntityManager.createEntities(count)`;
`rnd` is the stream of `Math.random()` samples, six per agent. -/
noncomputable def createdEntities (terrainSize : ℝ) (rnd : ℕ → ℝ)
    (count : ℕ) : List Entity :=
  (List.range count).map fun i =>
    mkEntity
      (randomPosition terrainSize (rnd (6 * i)) (rnd (6 * i + 1)) (rnd (6 * i + 2)))
      (randomVelocity (rnd (6 * i + 3)) (rnd (6 * i + 4)) (rnd (6 * i + 5)))

/-- Model of `EntityManager.createEntities(count)`: append the created
agents to the entity array. -/
noncomputable def createEntities (terrainSize : ℝ) (rnd : ℕ → ℝ)
    (count : ℕ) (es : List Entity) : List Entity :=
  es ++ createdEntities terrainSize rnd count

/-- Modelled from the spec: `randomizeEntities` is called from `main.ts`
but its body is not among the provided sources. Per the spec it
"re-applies this to the existing population without changing `N` or any
per-agent variable map": each existing agent gets a fresh position and
velocity from the creation distribution, everything else unchanged. -/
noncomputable def randomizeEntities (terrainSize : ℝ) (rnd : ℕ → ℝ)
    (es : List Entity) : List Entity :=
  es.enum.map fun ie =>
    { ie.2 with
      position := randomPosition terrainSize (rnd (6 * ie.1))
        (rnd (6 * ie.1 + 1)) (rnd (6 * ie.1 + 2)),
      velocity := randomVelocity (rnd (6 * ie.1 + 3)) (rnd (6 * ie.1 + 4))
        (rnd (6 * ie.1 + 5)) }

/-- Bounds the spec asserts for a freshly created or randomized agent:
horizontal position within `[-0.4 * terrainSize, 0.4 * terrainSize]`,
height within `[20, 100]`, velocity within the small per-axis ranges
(`[-5, 5]`, `[-2.5, 2.5]`, `[-5, 5]`). -/
def inBounds (terrainSize : ℝ) (e : Entity) : Prop :=
  |e.position.x| ≤ 0.4 * terrainSize ∧ |e.position.z| ≤ 0.4 * terrainSize ∧
  20 ≤ e.position.y ∧ e.position.y ≤ 100 ∧
  |e.velocity.x| ≤ 5 ∧ |e.velocity.y| ≤ 2.5 ∧ |e.velocity.z| ≤ 5

/-! ## Reference-heap model for the defensive-copy discipline

The value-level embedding above cannot express JavaScript object
mutation, so the clone discipline of `Entity.getState`,
`Entity.getPosition`, `Entity.getVelocity` and the `NearbyEntity`
construction in `findNearbyEntities` is modelled on an explicit heap:
vector objects and variable maps live in allocation arenas addressed by
natural-number references, `clone()` and `new Map(...)` allocate fresh
cells holding a copy of the value, and a policy mutation is a heap write.
Which neighbors are selected is the concern of `findNearbyEntities` and
claim C2; here the neighbor list is an arbitrary list of entity
references. -/

/-- Heap of mutable JavaScript objects reachable from the simulation
core: an arena of `THREE.Vector3` cells and an arena of `Map` cells. -/
structure Heap where
  vecCells : List Vec3
  mapCells : List VarMap

/-- Number of allocated vector cells. -/
def Heap.vecSize (h : Heap) : ℕ := h.vecCells.length

/-- Number of allocated map cells. -/
def Heap.mapSize (h : Heap) : ℕ := h.mapCells.length

/-- Allocate a fresh vector cell (a `clone()` result). -/
def Heap.allocVec (h : Heap) (v : Vec3) : Heap × ℕ :=
  ({ h with vecCells := h.vecCells ++ [v] }, h.vecCells.length)

/-- Allocate a fresh map cell (a `new Map(...)` result). -/
def Heap.allocMap (h : Heap) (m : VarMap) : Heap × ℕ :=
  ({ h with mapCells := h.mapCells ++ [m] }, h.mapCells.length)

/-- Read a vector cell. -/
def Heap.readVec (h : Heap) (r : ℕ) : Option Vec3 := h.vecCells[r]?

/-- Read a map cell. -/
def Heap.readMap (h : Heap) (r : ℕ) : Option VarMap := h.mapCells[r]?

/-- Overwrite a vector cell (mutation of a `THREE.Vector3`). -/
def Heap.writeVec (h : Heap) (r : ℕ) (v : Vec3) : Heap :=
  { h with vecCells := h.vecCells.set r v }

/-- Overwrite a map cell (mutation of a `Map`). -/
def Heap.writeMap (h : Heap) (r : ℕ) (m : VarMap) : Heap :=
  { h with mapCells := h.mapCells.set r m }

/-- The mutable object graph owned by one `Entity`: references to its
`position` and `velocity` vectors and its `randomVariables` map. -/
structure EntityRefs where
  posRef : ℕ
  velRef : ℕ
  varsRef : ℕ

/-- The object graph of an `EntityState` snapshot handed to the policy. -/
structure StateRefs where
  posRef : ℕ
  velRef : ℕ
  varsRef : ℕ

/-- The object graph of one `NearbyEntity` record handed to the policy. -/
structure NearbyRefs where
  posRef : ℕ
  velRef : ℕ
  distance : ℝ

/-- The object graph of a `MovementInput` handed to the policy. -/
structure InputRefs where
  current : StateRefs
  nearby : List NearbyRefs
  deltaTime : ℝ

/-- Heap model of `Entity.getState`: `position.clone()`,
`velocity.clone()` and `new Map(this.randomVariables)` each allocate a
fresh cell holding a copy of the entity's current value. -/
def getStateRefs (h : Heap) (er : EntityRefs) : Heap × StateRefs :=
  let a1 := h.allocVec ((h.readVec er.posRef).getD Vec3.zero)
  let a2 := a1.1.allocVec ((h.readVec er.velRef).getD Vec3.zero)
  let a3 := a2.1.allocMap ((h.readMap er.varsRef).getD [])
  (a3.1, { posRef := a1.2, velRef := a2.2, varsRef := a3.2 })

/-- Heap model of the `NearbyEntity` construction inside
`findNearbyEntities`: each selected neighbor contributes
`otherEntity.getPosition()` and `otherEntity.getVelocity()`, both of
which clone into fresh cells; the stored distance is the value-level
distance from the observer position. -/
noncomputable def allocNearbyStep (pos : Vec3)
    (acc : Heap × List NearbyRefs) (er : EntityRefs) :
    Heap × List NearbyRefs :=
  let a1 := acc.1.allocVec ((acc.1.readVec er.posRef).getD Vec3.zero)
  let a2 := a1.1.allocVec ((acc.1.readVec er.velRef).getD Vec3.zero)
  (a2.1, acc.2 ++
    [⟨a1.2, a2.2,
      Vec3.distanceTo pos ((acc.1.readVec er.posRef).getD Vec3.zero)⟩])

noncomputable def allocNearby (h : Heap) (pos : Vec3)
    (others : List EntityRefs) : Heap × List NearbyRefs :=
  others.foldl (allocNearbyStep pos) (h, [])

/-- Heap model of the `MovementInput` construction in
`EntityManager.update`: the current state snapshot and the neighbor
records are built from freshly allocated clones; `deltaTime` is a value. -/
noncomputable def buildMovementInput (h : Heap) (er : EntityRefs)
    (others : List EntityRefs) (dt : ℝ) : Heap × InputRefs :=
  let a1 := getStateRefs h er
  let a2 := allocNearby a1.1 ((h.readVec er.posRef).getD Vec3.zero) others
  (a2.1, { current := a1.2, nearby := a2.2, deltaTime := dt })

/-- Vector references reachable from a `MovementInput`. -/
def inputVecRefs (inp : InputRefs) : List ℕ :=
  inp.current.posRef :: inp.current.velRef ::
    (inp.nearby.map fun n => [n.posRef, n.velRef]).flatten

/-- Map references reachable from a `MovementInput`. -/
def inputMapRefs (inp : InputRefs) : List ℕ := [inp.current.varsRef]

/-- One mutation a policy could perform on objects reachable from its
input. -/
inductive HeapWrite where
  | vec (r : ℕ) (v : Vec3)
  | map (r : ℕ) (m : VarMap)

/-- Apply a sequence of mutations. -/
def applyWrites (h : Heap) (ws : List HeapWrite) : Heap :=
  ws.foldl
    (fun acc w =>
      match w with
      | HeapWrite.vec r v => acc.writeVec r v
      | HeapWrite.map r m => acc.writeMap r m) h

/-- A write sequence that touches only objects reachable from the given
`MovementInput`. -/
def ConfinedTo (inp : InputRefs) (ws : List HeapWrite) : Prop :=
  ∀ w ∈ ws,
    (∀ r v, w = HeapWrite.vec r v → r ∈ inputVecRefs inp) ∧
    (∀ r m, w = HeapWrite.map r m → r ∈ inputMapRefs inp)

/-! ## Helper lemmas -/

theorem Vec3.lengthSq_nonneg (v : Vec3) : 0 ≤ v.lengthSq := by
  have hx := mul_self_nonneg v.x
  have hy := mul_self_nonneg v.y
  have hz := mul_self_nonneg v.z
  unfold lengthSq; linarith

theorem Vec3.length_nonneg (v : Vec3) : 0 ≤ v.length := Real.sqrt_nonneg _

theorem Vec3.smul_smul (c d : ℝ) (v : Vec3) :
    smul c (smul d v) = smul (c * d) v := by
  simp only [smul, mk.injEq]
  refine ⟨by ring, by ring, by ring⟩

theorem Vec3.lengthSq_smul (c : ℝ) (v : Vec3) :
    (smul c v).lengthSq = c ^ 2 * v.lengthSq := by
  simp only [smul, lengthSq]; ring

theorem Vec3.length_smul (c : ℝ) (v : Vec3) :
    (smul c v).length = |c| * v.length := by
  unfold length
  rw [lengthSq_smul, Real.sqrt_mul (sq_nonneg c), Real.sqrt_sq_eq_abs]

theorem Vec3.length_smul_normalize {v : Vec3} (c : ℝ) (h : 0 < v.length) :
    (smul c (normalize v)).length = |c| := by
  rw [normalize, if_neg (ne_of_gt h), smul_smul, length_smul, abs_mul,
    abs_div, abs_one, abs_of_pos h]
  field_simp

theorem Vec3.vadd_smul_zero (v a : Vec3) : vadd v (smul 0 a) = v := by
  simp [vadd, smul]

theorem Vec3.length_zero : (zero).length = 0 := by
  simp [length, lengthSq, zero]

theorem applyPatch_position (e : Entity) (p : Option VarMap) :
    (applyPatch e p).position = e.position := by cases p <;> rfl

theorem applyPatch_velocity (e : Entity) (p : Option VarMap) :
    (applyPatch e p).velocity = e.velocity := by cases p <;> rfl

theorem entityUpdate_velocity_le (e : Entity) (a : Vec3) (dt : ℝ) :
    (entityUpdate e a dt).velocity.length ≤ maxSpeed := by
  unfold entityUpdate
  by_cases h : (Vec3.vadd e.velocity (Vec3.smul dt a)).length > maxSpeed
  · have hpos : 0 < (Vec3.vadd e.velocity (Vec3.smul dt a)).length :=
      lt_trans (by norm_num [maxSpeed]) h
    simp only [h, if_pos]
    rw [Vec3.length_smul_normalize _ hpos]
    simp [maxSpeed]
  · simp only [h, if_false]
    exact le_of_not_lt h

theorem entityUpdate_randomVariables (e : Entity) (a : Vec3) (dt : ℝ) :
    (entityUpdate e a dt).randomVariables = e.randomVariables := rfl

theorem entityUpdate_zero_dt (e : Entity) (a : Vec3)
    (h : e.velocity.length ≤ maxSpeed) :
    (entityUpdate e a 0).position = e.position ∧
    (entityUpdate e a 0).velocity = e.velocity := by
  unfold entityUpdate
  rw [Vec3.vadd_smul_zero]
  have hcap : ¬ e.velocity.length > maxSpeed := not_lt.mpr h
  simp only [hcap, if_false]
  exact ⟨Vec3.vadd_smul_zero _ _, trivial⟩

theorem tickStep_length (mf : MovementFunction) (R : ℝ) (K : ℕ) (dt : ℝ)
    (es : List Entity) (i : ℕ) :
    (tickStep mf R K dt es i).length = es.length := by
  unfold tickStep
  cases h : es[i]? <;> simp [h]

theorem tickLoop_length (mf : MovementFunction) (R : ℝ) (K : ℕ) (dt : ℝ)
    (es : List Entity) (n : ℕ) :
    (tickLoop mf R K dt es n).length = es.length := by
  induction n with
  | zero => rfl
  | succ n ih => rw [tickLoop, tickStep_length, ih]

theorem tickStep_getElem?_ne (mf : MovementFunction) (R : ℝ) (K : ℕ)
    (dt : ℝ) (es : List Entity) {i j : ℕ} (h : i ≠ j) :
    (tickStep mf R K dt es i)[j]? = es[j]? := by
  unfold tickStep
  cases hc : es[i]? with
  | none => rfl
  | some e => exact List.getElem?_set_ne h

theorem tickStep_getElem?_self (mf : MovementFunction) (R : ℝ) (K : ℕ)
    (dt : ℝ) (es : List Entity) {i : ℕ} {e : Entity} (h : es[i]? = some e) :
    ∃ a p, (tickStep mf R K dt es i)[i]? =
      some (applyPatch (entityUpdate e a dt) p) := by
  unfold tickStep
  rw [h]
  have hi : i < es.length := (List.getElem?_eq_some.mp h).1
  exact ⟨_, _, List.getElem?_set_eq_of_lt _ (by simpa using hi)⟩

theorem tickLoop_getElem?_of_le (mf : MovementFunction) (R : ℝ) (K : ℕ)
    (dt : ℝ) (es : List Entity) {i j : ℕ} (h : i ≤ j) :
    (tickLoop mf R K dt es i)[j]? = es[j]? := by
  induction i with
  | zero => rfl
  | succ i ih =>
    rw [tickLoop, tickStep_getElem?_ne mf R K dt _ (Nat.ne_of_lt h),
      ih (Nat.le_of_succ_le h)]

theorem tickLoop_getElem?_stable (mf : MovementFunction) (R : ℝ) (K : ℕ)
    (dt : ℝ) (es : List Entity) {i j n : ℕ} (hj : j < i) (hn : i ≤ n) :
    (tickLoop mf R K dt es n)[j]? = (tickLoop mf R K dt es i)[j]? := by
  induction n, hn using Nat.le_induction with
  | base => rfl
  | succ n hn ih =>
    rw [tickLoop, tickStep_getElem?_ne mf R K dt _
      (Nat.ne_of_lt (lt_of_lt_of_le hj hn)).symm, ih]

theorem managerUpdate_getElem?_post (mf : MovementFunction) (R : ℝ)
    (K : ℕ) (dt : ℝ) (es : List Entity) {j : ℕ} (hj : j < es.length) :
    ∃ e a p, (tickLoop mf R K dt es j)[j]? = some e ∧
      (managerUpdate mf R K dt es)[j]? =
        some (applyPatch (entityUpdate e a dt) p) := by
  have hlen : (tickLoop mf R K dt es j).length = es.length :=
    tickLoop_length mf R K dt es j
  have hget : ∃ e, (tickLoop mf R K dt es j)[j]? = some e := by
    have : j < (tickLoop mf R K dt es j).length := hlen ▸ hj
    exact ⟨_, List.getElem?_eq_getElem this⟩
  obtain ⟨e, he⟩ := hget
  obtain ⟨a, p, hap⟩ := tickStep_getElem?_self mf R K dt _ he
  refine ⟨e, a, p, he, ?_⟩
  rw [managerUpdate, tickLoop_getElem?_stable mf R K dt es
    (Nat.lt_succ_self j) hj, tickLoop, hap]

/-! ## Claim theorems -/

/-- Claim C1: for every agent and every tick, after the Integrator
(`Entity.update`) is applied with any acceleration and any `deltaTime`,
the magnitude of the agent's stored velocity is at most 50 (`maxSpeed`);
this holds for all agents after `tick()` returns. -/
theorem speed_cap_invariant :
    (∀ (e : Entity) (a : Vec3) (dt : ℝ),
        (entityUpdate e a dt).velocity.length ≤ 50) ∧
    (∀ (mf : MovementFunction) (R : ℝ) (K : ℕ) (dt : ℝ) (es : List Entity),
        ∀ e' ∈ managerUpdate mf R K dt es, e'.velocity.length ≤ 50) := by
  have hone : ∀ (e : Entity) (a : Vec3) (dt : ℝ),
      (entityUpdate e a dt).velocity.length ≤ 50 := by
    intro e a dt
    have := entityUpdate_velocity_le e a dt
    simpa [maxSpeed] using this
  refine ⟨hone, ?_⟩
  intro mf R K dt es e' hmem
  obtain ⟨j, hj⟩ := List.mem_iff_getElem?.mp hmem
  have hjlt : j < es.length := by
    have := (List.getElem?_eq_some.mp hj).1
    rwa [managerUpdate, tickLoop_length] at this
  obtain ⟨e, a, p, _, hpost⟩ := managerUpdate_getElem?_post mf R K dt es hjlt
  rw [hj] at hpost
  have he' : e' = applyPatch (entityUpdate e a dt) p := by
    exact Option.some.inj hpost
  rw [he', applyPatch_velocity]
  exact hone e a dt

/-- Claim C5: for every prior velocity `v`, prior position `p`,
acceleration `a`, and `deltaTime ≥ 0`, the Integrator computes
`v1 = v + a * deltaTime`; if the length of `v1` exceeds 50 it rescales
`v1` to magnitude 50 preserving its direction (a positive multiple of
`v1`, namely `(50 / |v1|) * v1`), otherwise keeps `v1`; and the new
position is the prior position plus `deltaTime` times the already-capped
velocity. Both replace the stored velocity and position. -/
theorem integrator_contract (e : Entity) (a : Vec3) (dt : ℝ)
    (hdt : 0 ≤ dt) (v1 : Vec3)
    (hv1 : v1 = Vec3.vadd e.velocity (Vec3.smul dt a)) :
    (v1.length ≤ 50 → (entityUpdate e a dt).velocity = v1) ∧
    (50 < v1.length →
      (entityUpdate e a dt).velocity = Vec3.smul (50 / v1.length) v1 ∧
      (entityUpdate e a dt).velocity.length = 50 ∧
      ∃ c : ℝ, 0 < c ∧ (entityUpdate e a dt).velocity = Vec3.smul c v1) ∧
    (entityUpdate e a dt).position =
      Vec3.vadd e.position (Vec3.smul dt (entityUpdate e a dt).velocity) := by
  subst hv1
  set v1 := Vec3.vadd e.velocity (Vec3.smul dt a) with hv1def
  refine ⟨?_, ?_, ?_⟩
  · intro hle
    have hcap : ¬ v1.length > maxSpeed := by
      rw [maxSpeed]; exact not_lt.mpr hle
    unfold entityUpdate
    simp only [← hv1def, hcap, if_false]
  · intro hgt
    have hpos : (0 : ℝ) < v1.length := lt_trans (by norm_num) hgt
    have hcap : v1.length > maxSpeed := by rw [maxSpeed]; exact hgt
    have hvel : (entityUpdate e a dt).velocity =
        Vec3.smul maxSpeed v1.normalize := by
      unfold entityUpdate
      simp only [← hv1def, hcap, if_true]
    have heq : Vec3.smul maxSpeed v1.normalize =
        Vec3.smul (50 / v1.length) v1 := by
      rw [Vec3.normalize, if_neg (ne_of_gt hpos), Vec3.smul_smul]
      unfold maxSpeed
      congr 1
      field_simp
    refine ⟨by rw [hvel, heq], ?_, ?_⟩
    · rw [hvel, Vec3.length_smul_normalize _ hpos]
      simp [maxSpeed]
    · refine ⟨50 / v1.length, by positivity, by rw [hvel, heq]⟩
  · unfold entityUpdate
    simp only [← hv1def]

/-- Claim C5, witness: the contract instantiated at a resting agent,
zero acceleration and `deltaTime = 1`. -/
theorem integrator_contract_witness :
    (0 : ℝ) ≤ 1 ∧
    Vec3.zero = Vec3.vadd (mkEntity Vec3.zero Vec3.zero).velocity
      (Vec3.smul 1 Vec3.zero) ∧
    ((Vec3.zero.length ≤ 50 →
      (entityUpdate (mkEntity Vec3.zero Vec3.zero) Vec3.zero 1).velocity
        = Vec3.zero) ∧
    (50 < Vec3.zero.length →
      (entityUpdate (mkEntity Vec3.zero Vec3.zero) Vec3.zero 1).velocity
        = Vec3.smul (50 / Vec3.zero.length) Vec3.zero ∧
      (entityUpdate (mkEntity Vec3.zero Vec3.zero) Vec3.zero 1).velocity.length
        = 50 ∧
      ∃ c : ℝ, 0 < c ∧
        (entityUpdate (mkEntity Vec3.zero Vec3.zero) Vec3.zero 1).velocity
          = Vec3.smul c Vec3.zero) ∧
    (entityUpdate (mkEntity Vec3.zero Vec3.zero) Vec3.zero 1).position =
      Vec3.vadd (mkEntity Vec3.zero Vec3.zero).position
        (Vec3.smul 1
          (entityUpdate (mkEntity Vec3.zero Vec3.zero) Vec3.zero 1).velocity)) := by
  have hv1 : Vec3.zero = Vec3.vadd (mkEntity Vec3.zero Vec3.zero).velocity
      (Vec3.smul 1 Vec3.zero) := by
    simp [Vec3.vadd, Vec3.smul, Vec3.zero, mkEntity]
  exact ⟨by norm_num, hv1,
    integrator_contract (mkEntity Vec3.zero Vec3.zero) Vec3.zero 1
      (by norm_num) Vec3.zero hv1⟩

/-- Claim C6: a tick with `deltaTime = 0` leaves every agent's stored
position and velocity exactly as before the call, for every movement
policy (also one returning nonzero acceleration); stated for populations
whose agents satisfy the speed-cap invariant, which by claim C1 holds of
every population that has been created or ticked. -/
theorem zero_dt_noop (mf : MovementFunction) (R : ℝ) (K : ℕ)
    (es : List Entity) (h : ∀ e ∈ es, e.velocity.length ≤ 50) (j : ℕ) :
    ((managerUpdate mf R K 0 es)[j]?).map (fun e => (e.position, e.velocity))
      = (es[j]?).map fun e => (e.position, e.velocity) := by
  suffices hloop : ∀ i j : ℕ,
      ((tickLoop mf R K 0 es i)[j]?).map (fun e => (e.position, e.velocity))
        = (es[j]?).map fun e => (e.position, e.velocity) by
    exact hloop es.length j
  intro i
  induction i with
  | zero => intro j; rfl
  | succ i ih =>
    intro j
    rw [tickLoop]
    set l := tickLoop mf R K 0 es i with hl
    unfold tickStep
    cases hc : l[i]? with
    | none => exact ih j
    | some e =>
      by_cases hij : i = j
      · subst hij
        have hlt : i < l.length := (List.getElem?_eq_some.mp hc).1
        rw [List.getElem?_set_eq_of_lt _ hlt]
        have hcur := ih i
        rw [hc] at hcur
        cases hes : es[i]? with
        | none => rw [hes] at hcur; simp at hcur
        | some e0 =>
          rw [hes] at hcur
          simp only [Option.map_some'] at hcur ⊢
          have hpv : e.position = e0.position ∧ e.velocity = e0.velocity := by
            have h1 := congrArg (Option.map Prod.fst) hcur
            have h2 := congrArg (Option.map Prod.snd) hcur
            simp only [Option.map_some'] at h1 h2
            exact ⟨Option.some.inj h1, Option.some.inj h2⟩
          have hvle : e.velocity.length ≤ maxSpeed := by
            rw [hpv.2, maxSpeed]
            exact h e0 (List.mem_iff_getElem?.mpr ⟨i, hes⟩)
          have hz := entityUpdate_zero_dt e
            (mf { currentState := getState e,
                  nearbyEntities := findNearbyEntities R K (getState e).position i l,
                  terrainAhead := getTerrainAhead (getState e).position (getState e).velocity,
                  deltaTime := 0 }).acceleration hvle
          simp only [Option.map_some', applyPatch_position, applyPatch_velocity,
            hz.1, hz.2, hpv.1, hpv.2]
      · rw [List.getElem?_set_ne hij]
        exact ih j

/-- Claim C6, witness: a one-agent population at rest under a policy that
returns the nonzero acceleration `(1, 2, 3)`. -/
theorem zero_dt_noop_witness :
    (∀ e ∈ [mkEntity Vec3.zero Vec3.zero], e.velocity.length ≤ 50) ∧
    ∀ j : ℕ,
      ((managerUpdate (fun _ => ⟨⟨1, 2, 3⟩, none⟩) 50 7 0
          [mkEntity Vec3.zero Vec3.zero])[j]?).map
        (fun e => (e.position, e.velocity))
      = (([mkEntity Vec3.zero Vec3.zero] : List Entity)[j]?).map
          fun e => (e.position, e.velocity) := by
  have hb : ∀ e ∈ [mkEntity Vec3.zero Vec3.zero], e.velocity.length ≤ 50 := by
    intro e he
    rw [List.mem_singleton] at he
    subst he
    rw [mkEntity]
    simp [Vec3.length_zero]
  exact ⟨hb, zero_dt_noop (fun _ => ⟨⟨1, 2, 3⟩, none⟩) 50 7 _ hb⟩

theorem mapGet_mapSet (m : VarMap) (k : String) (v : ℝ) (k' : String) :
    mapGet (mapSet m k v) k' = if k = k' then some v else mapGet m k' := by
  induction m with
  | nil =>
    by_cases h : k = k' <;> simp [mapSet, mapGet, h]
  | cons kv t ih =>
    obtain ⟨k1, v1⟩ := kv
    by_cases h1 : k1 = k
    · subst h1
      by_cases h2 : k1 = k' <;> simp [mapSet, mapGet, h2]
    · by_cases h2 : k1 = k'
      · subst h2
        have : ¬ k = k1 := fun hk => h1 hk.symm
        simp [mapSet, mapGet, h1, this]
      · simp [mapSet, mapGet, h1, h2, ih]

theorem mapGet_eq_none_of_not_mem (m : VarMap) (k : String)
    (h : k ∉ mapKeys m) : mapGet m k = none := by
  induction m with
  | nil => rfl
  | cons kv t ih =>
    obtain ⟨k1, v1⟩ := kv
    simp only [mapKeys, List.map_cons, List.mem_cons] at h
    push_neg at h
    have h1 : k1 ≠ k := fun he => h.1 he.symm
    simp only [mapGet, h1, if_false]
    exact ih fun hm => h.2 hm

theorem mergeVars_cons (base : VarMap) (k : String) (v : ℝ) (t : VarMap) :
    mergeVars base ((k, v) :: t) = mergeVars (mapSet base k v) t := rfl

theorem mapGet_mergeVars_not_mem (base patch : VarMap) (k : String)
    (h : k ∉ mapKeys patch) :
    mapGet (mergeVars base patch) k = mapGet base k := by
  induction patch generalizing base with
  | nil => rfl
  | cons kv t ih =>
    obtain ⟨k1, v1⟩ := kv
    simp only [mapKeys, List.map_cons, List.mem_cons] at h
    push_neg at h
    rw [mergeVars_cons, ih _ fun hm => h.2 hm, mapGet_mapSet,
      if_neg fun he => h.1 he.symm]

theorem mapGet_mergeVars (base patch : VarMap)
    (h : (mapKeys patch).Nodup) (k : String) :
    mapGet (mergeVars base patch) k =
      match mapGet patch k with
      | some v => some v
      | none => mapGet base k := by
  induction patch generalizing base with
  | nil => rfl
  | cons kv t ih =>
    obtain ⟨k1, v1⟩ := kv
    simp only [mapKeys, List.map_cons, List.nodup_cons] at h
    by_cases h1 : k1 = k
    · subst h1
      have hnone : mapGet t k1 = none :=
        mapGet_eq_none_of_not_mem t k1 h.1
      rw [mergeVars_cons, mapGet_mergeVars_not_mem _ _ _ h.1]
      simp [mapGet, hnone, mapGet_mapSet]
    · rw [mergeVars_cons, ih _ h.2]
      cases htk : mapGet t k <;> simp [mapGet, h1, htk, mapGet_mapSet]

/-- Claim C7: merging a variable patch sets each key of the patch to the
patch's value (overwriting on key collision) and leaves every key absent
from the patch unchanged; the integrator itself never touches the
variable map, and when the policy returns no patch the variable map is
unchanged. -/
theorem patch_merge_semantics (base patch : VarMap)
    (h : (mapKeys patch).Nodup) (k : String) :
    (mapGet (mergeVars base patch) k =
      match mapGet patch k with
      | some v => some v
      | none => mapGet base k) ∧
    (∀ (e : Entity) (a : Vec3) (dt : ℝ),
      (entityUpdate e a dt).randomVariables = e.randomVariables) ∧
    (∀ e : Entity, applyPatch e none = e) :=
  ⟨mapGet_mergeVars base patch h k,
   fun e a dt => entityUpdate_randomVariables e a dt,
   fun _ => rfl⟩

/-- Claim C7, witness: prior variables `a = 1` with patch `a = 2, b = 3`
yield `a = 2, b = 3` — overwritten at `a`, extended at `b`, and the
resulting store is literally the two-entry list. -/
theorem patch_merge_semantics_witness :
    (mapKeys [("a", (2 : ℝ)), ("b", 3)]).Nodup ∧
    (mapGet (mergeVars [("a", (1 : ℝ))] [("a", 2), ("b", 3)]) "a" =
      match mapGet [("a", (2 : ℝ)), ("b", 3)] "a" with
      | some v => some v
      | none => mapGet [("a", (1 : ℝ))] "a") ∧
    mapGet (mergeVars [("a", (1 : ℝ))] [("a", 2), ("b", 3)]) "a" = some 2 ∧
    mapGet (mergeVars [("a", (1 : ℝ))] [("a", 2), ("b", 3)]) "b" = some 3 ∧
    mergeVars [("a", (1 : ℝ))] [("a", 2), ("b", 3)] = [("a", 2), ("b", 3)] := by
  have hnodup : (mapKeys [("a", (2 : ℝ)), ("b", 3)]).Nodup := by
    simp [mapKeys]
  refine ⟨hnodup,
    (patch_merge_semantics [("a", 1)] [("a", 2), ("b", 3)] hnodup "a").1,
    ?_, ?_, ?_⟩
  · rfl
  · rfl
  · rfl

theorem tickLoop_succ_unfold (mf : MovementFunction) (R : ℝ) (K : ℕ)
    (dt : ℝ) (es : List Entity) (i : ℕ) (e : Entity)
    (he : (tickLoop mf R K dt es i)[i]? = some e) :
    tickLoop mf R K dt es (i + 1) =
      (tickLoop mf R K dt es i).set i
        (applyPatch
          (entityUpdate e
            (mf { currentState := getState e,
                  nearbyEntities :=
                    findNearbyEntities R K (getState e).position i
                      (tickLoop mf R K dt es i),
                  terrainAhead :=
                    getTerrainAhead (getState e).position (getState e).velocity,
                  deltaTime := dt }).acceleration dt)
          (mf { currentState := getState e,
                nearbyEntities :=
                  findNearbyEntities R K (getState e).position i
                    (tickLoop mf R K dt es i),
                terrainAhead :=
                  getTerrainAhead (getState e).position (getState e).velocity,
                deltaTime := dt }).shouldUpdateRandomVariables) := by
  rw [tickLoop]
  unfold tickStep
  rw [he]

/-- Claim C3: agents are updated in place in index order; the entity list
visible to agent `i`'s neighbor query is `tickLoop … i` (by
`tickLoop_succ_unfold`, step `i` of the loop snapshots, queries and
updates against exactly that list), and in it every index `j < i` holds
agent `j`'s post-update (current-tick, final) state while every index
`j ≥ i` still holds agent `j`'s pre-update (previous tick's committed)
state. -/
theorem sequential_consistency (mf : MovementFunction) (R : ℝ) (K : ℕ)
    (dt : ℝ) (es : List Entity) (i : ℕ) (hi : i ≤ es.length) (j : ℕ) :
    (tickLoop mf R K dt es i)[j]? =
      if j < i then (managerUpdate mf R K dt es)[j]? else es[j]? := by
  by_cases hj : j < i
  · rw [if_pos hj, managerUpdate,
      tickLoop_getElem?_stable mf R K dt es hj hi]
  · rw [if_neg hj, tickLoop_getElem?_of_le mf R K dt es (not_lt.mp hj)]

/-- Claim C3, witness: a two-agent population, observing index 0 from the
standpoint of agent 1's query. -/
theorem sequential_consistency_witness :
    1 ≤ ([mkEntity Vec3.zero Vec3.zero, mkEntity Vec3.up Vec3.zero] :
          List Entity).length ∧
    (tickLoop
        (fun _ => { acceleration := Vec3.zero,
                    shouldUpdateRandomVariables := none } : MovementFunction)
        50 7 1 [mkEntity Vec3.zero Vec3.zero, mkEntity Vec3.up Vec3.zero]
        1)[0]? =
      if 0 < 1 then
        (managerUpdate
          (fun _ => { acceleration := Vec3.zero,
                      shouldUpdateRandomVariables := none } : MovementFunction)
          50 7 1
          [mkEntity Vec3.zero Vec3.zero, mkEntity Vec3.up Vec3.zero])[0]?
      else ([mkEntity Vec3.zero Vec3.zero, mkEntity Vec3.up Vec3.zero] :
          List Entity)[0]? := by
  constructor
  · simp
  · exact sequential_consistency _ 50 7 1 _ 1 (by simp) 0

theorem mem_inRangeCandidates {R : ℝ} {pos : Vec3} {excl : ℕ}
    {es : List Entity} {n : NearbyEntity} :
    n ∈ inRangeCandidates R pos excl es ↔
      ∃ i e, i ≠ excl ∧ es[i]? = some e ∧
        Vec3.distanceTo pos e.position ≤ R ∧ n = mkNearby pos e := by
  unfold inRangeCandidates
  rw [List.mem_filterMap]
  constructor
  · rintro ⟨⟨i, e⟩, hmem, hf⟩
    have hie : es[i]? = some e := by
      have := List.mk_mem_enum_iff_getElem?.mp hmem
      simpa using this
    by_cases h1 : i = excl
    · simp [h1] at hf
    · by_cases h2 : Vec3.distanceTo pos e.position ≤ R
      · refine ⟨i, e, h1, hie, h2, ?_⟩
        simp only [h1, if_false, h2, if_true] at hf
        exact (Option.some.inj hf).symm
      · simp [h1, h2] at hf
  · rintro ⟨i, e, h1, hie, h2, hn⟩
    refine ⟨(i, e), ?_, ?_⟩
    · exact List.mk_mem_enum_iff_getElem?.mpr (by simpa using hie)
    · simp only [h1, if_false, h2, if_true, hn]

theorem mem_closeTier {R : ℝ} {pos : Vec3} {excl : ℕ} {es : List Entity}
    {n : NearbyEntity} :
    n ∈ closeTier R pos excl es ↔
      n ∈ inRangeCandidates R pos excl es ∧ n.distance ≤ closeRange := by
  simp [closeTier, List.mem_filter]

theorem mem_outerTier {R : ℝ} {pos : Vec3} {excl : ℕ} {es : List Entity}
    {n : NearbyEntity} :
    n ∈ outerTier R pos excl es ↔
      n ∈ inRangeCandidates R pos excl es ∧ ¬ n.distance ≤ closeRange := by
  simp [outerTier, List.mem_filter]

theorem distance_le_of_mem_inRange {R : ℝ} {pos : Vec3} {excl : ℕ}
    {es : List Entity} {n : NearbyEntity}
    (h : n ∈ inRangeCandidates R pos excl es) : n.distance ≤ R := by
  obtain ⟨i, e, _, _, hd, hn⟩ := mem_inRangeCandidates.mp h
  rw [hn]
  exact hd

theorem mem_findNearby_characterize {R : ℝ} {K : ℕ} {pos : Vec3}
    {excl : ℕ} {es : List Entity} {n : NearbyEntity}
    (h : n ∈ findNearbyEntities R K pos excl es) :
    n ∈ inRangeCandidates R pos excl es := by
  unfold findNearbyEntities at h
  rcases List.mem_append.mp h with hc | ho
  · have := (List.perm_insertionSort distLE
      (closeTier R pos excl es)).mem_iff.mp (List.mem_of_mem_take hc)
    exact (mem_closeTier.mp this).1
  · have := (List.perm_insertionSort distLE
      (outerTier R pos excl es)).mem_iff.mp (List.mem_of_mem_take ho)
    exact (mem_outerTier.mp this).1

/-- Claim C4: the neighbor list never contains the observing agent itself
(every entry originates from a population index different from the
excluded one), and its length never exceeds the configured cap `K`
(`maxEntityPerception`). -/
theorem perception_exclusion_and_cap (R : ℝ) (K : ℕ) (pos : Vec3)
    (excl : ℕ) (es : List Entity) :
    (∀ n ∈ findNearbyEntities R K pos excl es,
      ∃ i e, i ≠ excl ∧ es[i]? = some e ∧ n = mkNearby pos e) ∧
    (findNearbyEntities R K pos excl es).length ≤ K := by
  constructor
  · intro n hn
    obtain ⟨i, e, h1, h2, _, h4⟩ :=
      mem_inRangeCandidates.mp (mem_findNearby_characterize hn)
    exact ⟨i, e, h1, h2, h4⟩
  · unfold findNearbyEntities
    rw [List.length_append, List.length_take, List.length_take]
    have h1 : min (min K 7)
        ((closeTier R pos excl es).insertionSort distLE).length ≤ K :=
      le_trans (min_le_left _ _) (min_le_left _ _)
    have h2 : min (K - min (min K 7)
          ((closeTier R pos excl es).insertionSort distLE).length)
        ((outerTier R pos excl es).insertionSort distLE).length ≤
        K - min (min K 7)
          ((closeTier R pos excl es).insertionSort distLE).length :=
      min_le_left _ _
    omega

/-- Claim C2: the neighbor query returns first up to `min K 7` close-tier
entries (distance at most 20) in ascending distance order, then fills the
remaining `K` minus taken slots with outer-tier entries (distance above
20 and at most `R`) in ascending distance order; excess close-tier agents
beyond `min K 7` are dropped (the kept close entries precede every
dropped one in distance), the outer tier receives only the leftover
capacity, and distances are non-decreasing within each tier of the
result. -/
theorem tiered_query_shape (R : ℝ) (K : ℕ) (pos : Vec3) (excl : ℕ)
    (es : List Entity) :
    ∃ cPart oPart,
      findNearbyEntities R K pos excl es = cPart ++ oPart ∧
      cPart.length = min (min K 7) (closeTier R pos excl es).length ∧
      oPart.length = min (K - cPart.length) (outerTier R pos excl es).length ∧
      cPart.Pairwise distLE ∧
      oPart.Pairwise distLE ∧
      (∀ n ∈ cPart, n.distance ≤ closeRange ∧ n.distance ≤ R) ∧
      (∀ n ∈ oPart, closeRange < n.distance ∧ n.distance ≤ R) ∧
      (∃ cRest, (cPart ++ cRest).Perm (closeTier R pos excl es) ∧
        ∀ a ∈ cPart, ∀ b ∈ cRest, a.distance ≤ b.distance) ∧
      (∃ oRest, (oPart ++ oRest).Perm (outerTier R pos excl es) ∧
        ∀ a ∈ oPart, ∀ b ∈ oRest, a.distance ≤ b.distance) := by
  set closeSorted := (closeTier R pos excl es).insertionSort distLE with hcs
  set distantSorted := (outerTier R pos excl es).insertionSort distLE with hds
  set cPart := closeSorted.take (min K 7) with hcp
  set oPart := distantSorted.take (K - cPart.length) with hop
  have hcsort : closeSorted.Pairwise distLE :=
    List.sorted_insertionSort distLE (closeTier R pos excl es)
  have hdsort : distantSorted.Pairwise distLE :=
    List.sorted_insertionSort distLE (outerTier R pos excl es)
  have hcperm : closeSorted.Perm (closeTier R pos excl es) :=
    List.perm_insertionSort distLE (closeTier R pos excl es)
  have hdperm : distantSorted.Perm (outerTier R pos excl es) :=
    List.perm_insertionSort distLE (outerTier R pos excl es)
  have hsplitc : ∀ a ∈ cPart, ∀ b ∈ closeSorted.drop (min K 7),
      a.distance ≤ b.distance := by
    intro a ha b hb
    have := List.pairwise_append.mp
      (by rw [List.take_append_drop (min K 7) closeSorted]; exact hcsort)
    exact this.2.2 a ha b hb
  have hsplito : ∀ a ∈ oPart, ∀ b ∈ distantSorted.drop (K - cPart.length),
      a.distance ≤ b.distance := by
    intro a ha b hb
    have := List.pairwise_append.mp
      (by rw [List.take_append_drop (K - cPart.length) distantSorted];
          exact hdsort)
    exact this.2.2 a ha b hb
  refine ⟨cPart, oPart, rfl, ?_, ?_, ?_, ?_, ?_, ?_, ?_, ?_⟩
  · rw [hcp, List.length_take, hcperm.length_eq]
  · rw [hop, List.length_take, hdperm.length_eq]
  · exact hcsort.sublist (List.take_sublist _ _)
  · exact hdsort.sublist (List.take_sublist _ _)
  · intro n hn
    have hmem : n ∈ closeTier R pos excl es :=
      hcperm.mem_iff.mp (List.mem_of_mem_take hn)
    obtain ⟨hin, hd⟩ := mem_closeTier.mp hmem
    exact ⟨hd, distance_le_of_mem_inRange hin⟩
  · intro n hn
    have hmem : n ∈ outerTier R pos excl es :=
      hdperm.mem_iff.mp (List.mem_of_mem_take hn)
    obtain ⟨hin, hd⟩ := mem_outerTier.mp hmem
    exact ⟨not_le.mp hd, distance_le_of_mem_inRange hin⟩
  · refine ⟨closeSorted.drop (min K 7), ?_, hsplitc⟩
    rw [hcp, List.take_append_drop]
    exact hcperm
  · refine ⟨distantSorted.drop (K - cPart.length), ?_, hsplito⟩
    rw [hop, List.take_append_drop]
    exact hdperm

theorem inBounds_of_random (T : ℝ) (hT : 0 ≤ T) (e : Entity)
    {r0 r1 r2 r3 r4 r5 : ℝ}
    (hp : e.position = randomPosition T r0 r1 r2)
    (hv : e.velocity = randomVelocity r3 r4 r5)
    (h0 : 0 ≤ r0 ∧ r0 < 1) (h1 : 0 ≤ r1 ∧ r1 < 1) (h2 : 0 ≤ r2 ∧ r2 < 1)
    (h3 : 0 ≤ r3 ∧ r3 < 1) (h4 : 0 ≤ r4 ∧ r4 < 1) (h5 : 0 ≤ r5 ∧ r5 < 1) :
    inBounds T e := by
  unfold inBounds
  rw [hp, hv]
  unfold randomPosition randomVelocity
  have haux : (0:ℝ) ≤ T * (1 - r0) := mul_nonneg hT (by linarith [h0.2])
  have haux0 : (0:ℝ) ≤ T * r0 := mul_nonneg hT h0.1
  have haux2 : (0:ℝ) ≤ T * (1 - r2) := mul_nonneg hT (by linarith [h2.2])
  have haux2b : (0:ℝ) ≤ T * r2 := mul_nonneg hT h2.1
  dsimp only
  refine ⟨?_, ?_, ?_, ?_, ?_, ?_, ?_⟩
  · rw [abs_le]
    constructor
    · nlinarith
    · nlinarith
  · rw [abs_le]
    constructor
    · nlinarith
    · nlinarith
  · nlinarith [h1.1]
  · nlinarith [h1.2]
  · rw [abs_le]
    constructor
    · linarith [h3.1]
    · linarith [h3.2]
  · rw [abs_le]
    constructor
    · linarith [h4.1]
    · linarith [h4.2]
  · rw [abs_le]
    constructor
    · linarith [h5.1]
    · linarith [h5.2]

/-- Claim C9: population creation places each of the `count` agents
within `[-0.4 * terrainSize, 0.4 * terrainSize]` horizontally and
`[20, 100]` vertically, with velocity in the small per-axis ranges; the
randomize operation re-applies this to the existing population,
preserving the population size and every per-agent variable map, so on a
terrain of size 1000 every randomized agent has horizontal coordinates
within `[-400, 400]` and height within `[20, 100]`. `rnd` is the stream
of `Math.random()` samples, each in `[0, 1)`. -/
theorem population_random_bounds (T : ℝ) (hT : 0 ≤ T) (rnd : ℕ → ℝ)
    (hr : ∀ n, 0 ≤ rnd n ∧ rnd n < 1) (count : ℕ) (es : List Entity) :
    (createdEntities T rnd count).length = count ∧
    (∀ e ∈ createdEntities T rnd count, inBounds T e) ∧
    (randomizeEntities T rnd es).length = es.length ∧
    (∀ j : ℕ, ((randomizeEntities T rnd es)[j]?).map Entity.randomVariables
      = (es[j]?).map Entity.randomVariables) ∧
    (∀ e ∈ randomizeEntities T rnd es, inBounds T e) ∧
    (T = 1000 → ∀ e ∈ randomizeEntities T rnd es,
      -400 ≤ e.position.x ∧ e.position.x ≤ 400 ∧
      -400 ≤ e.position.z ∧ e.position.z ≤ 400 ∧
      20 ≤ e.position.y ∧ e.position.y ≤ 100) := by
  have hrand : ∀ e ∈ randomizeEntities T rnd es, inBounds T e := by
    intro e he
    unfold randomizeEntities at he
    obtain ⟨ie, _, hfe⟩ := List.mem_map.mp he
    exact inBounds_of_random T hT e (by rw [← hfe]) (by rw [← hfe])
      (hr _) (hr _) (hr _) (hr _) (hr _) (hr _)
  refine ⟨?_, ?_, ?_, ?_, hrand, ?_⟩
  · unfold createdEntities
    rw [List.length_map, List.length_range]
  · intro e he
    unfold createdEntities at he
    obtain ⟨i, _, hfe⟩ := List.mem_map.mp he
    exact inBounds_of_random T hT e (by rw [← hfe]; rfl) (by rw [← hfe]; rfl)
      (hr _) (hr _) (hr _) (hr _) (hr _) (hr _)
  · unfold randomizeEntities
    rw [List.length_map, List.enum_length]
  · intro j
    unfold randomizeEntities
    rw [List.getElem?_map, List.getElem?_enum]
    cases es[j]? <;> rfl
  · intro hT1000 e he
    have hb := hrand e he
    rw [hT1000] at hb
    obtain ⟨hx, hz, hy1, hy2, _⟩ := hb
    rw [abs_le] at hx hz
    norm_num at hx hz
    exact ⟨hx.1, hx.2, hz.1, hz.2, hy1, hy2⟩

/-- Claim C9, witness: one created agent and a one-agent population
randomized on a terrain of size 1000, with the constant sample `1 / 2`. -/
theorem population_random_bounds_witness :
    (0 : ℝ) ≤ 1000 ∧ (∀ n : ℕ, 0 ≤ ((fun _ => 1 / 2 : ℕ → ℝ) n) ∧
      ((fun _ => 1 / 2 : ℕ → ℝ) n) < 1) ∧
    ((createdEntities 1000 (fun _ => 1 / 2) 1).length = 1 ∧
    (∀ e ∈ createdEntities 1000 (fun _ => 1 / 2) 1, inBounds 1000 e) ∧
    (randomizeEntities 1000 (fun _ => 1 / 2)
        [mkEntity Vec3.zero Vec3.zero]).length =
      ([mkEntity Vec3.zero Vec3.zero] : List Entity).length ∧
    (∀ j : ℕ, ((randomizeEntities 1000 (fun _ => 1 / 2)
          [mkEntity Vec3.zero Vec3.zero])[j]?).map Entity.randomVariables
      = (([mkEntity Vec3.zero Vec3.zero] : List Entity)[j]?).map
          Entity.randomVariables) ∧
    (∀ e ∈ randomizeEntities 1000 (fun _ => 1 / 2)
        [mkEntity Vec3.zero Vec3.zero], inBounds 1000 e) ∧
    ((1000 : ℝ) = 1000 → ∀ e ∈ randomizeEntities 1000 (fun _ => 1 / 2)
        [mkEntity Vec3.zero Vec3.zero],
      -400 ≤ e.position.x ∧ e.position.x ≤ 400 ∧
      -400 ≤ e.position.z ∧ e.position.z ≤ 400 ∧
      20 ≤ e.position.y ∧ e.position.y ≤ 100)) := by
  have hr : ∀ n : ℕ, 0 ≤ ((fun _ => 1 / 2 : ℕ → ℝ) n) ∧
      ((fun _ => 1 / 2 : ℕ → ℝ) n) < 1 := fun _ => by norm_num
  exact ⟨by norm_num, hr,
    population_random_bounds 1000 (by norm_num) (fun _ => 1 / 2) hr 1
      [mkEntity Vec3.zero Vec3.zero]⟩

theorem sqrt_two_ne_one : Real.sqrt 2 ≠ 1 := by
  intro h
  have h2 : (Real.sqrt 2) ^ 2 = 2 := Real.sq_sqrt (by norm_num)
  rw [h] at h2
  norm_num at h2

theorem length_001 : (⟨0, 0, 0⟩ : Vec3).length = 0 := by
  have : (⟨0, 0, 0⟩ : Vec3).lengthSq = 0 := by
    simp [Vec3.lengthSq]
  rw [Vec3.length, this, Real.sqrt_zero]

theorem length_0010 : (⟨0, 0, 10⟩ : Vec3).length = 10 := by
  have hsq : (⟨0, 0, 10⟩ : Vec3).lengthSq = 10 ^ 2 := by
    simp [Vec3.lengthSq]; norm_num
  rw [Vec3.length, hsq, Real.sqrt_sq (by norm_num : (0:ℝ) ≤ 10)]

/-- The concrete integrator step of the C8 counterexample: a strong
braking acceleration brings the agent from speed 10 to rest in one tick. -/
theorem entityUpdate_brake :
    entityUpdate (mkEntity Vec3.zero ⟨0, 0, 10⟩) ⟨0, 0, -10⟩ 1 =
      { position := Vec3.zero, velocity := ⟨0, 0, 0⟩, randomVariables := [],
        meshPosition := Vec3.zero, meshQuaternion := Quat.qId } := by
  unfold entityUpdate
  have hv1 : Vec3.vadd (mkEntity Vec3.zero ⟨0, 0, 10⟩).velocity
      (Vec3.smul 1 ⟨0, 0, -10⟩) = (⟨0, 0, 0⟩ : Vec3) := by
    show Vec3.vadd ⟨0, 0, 10⟩ (Vec3.smul 1 ⟨0, 0, -10⟩) = _
    simp [Vec3.vadd, Vec3.smul]
  rw [hv1]
  have hcap : ¬ (⟨0, 0, 0⟩ : Vec3).length > maxSpeed := by
    rw [length_001, maxSpeed]; norm_num
  have hq : ¬ (⟨0, 0, 0⟩ : Vec3).length > 0.1 := by
    rw [length_001]; norm_num
  simp only [hcap, if_false, hq]
  have hp : Vec3.vadd (mkEntity Vec3.zero ⟨0, 0, 10⟩).position
      (Vec3.smul 1 ⟨0, 0, 0⟩) = Vec3.zero := by
    show Vec3.vadd Vec3.zero (Vec3.smul 1 ⟨0, 0, 0⟩) = _
    simp [Vec3.vadd, Vec3.smul, Vec3.zero]
  rw [hp]
  rfl

/-- Rendered orientation of an agent moving along the negative-y-to-z
rotation: at velocity `(0, 0, 10)` the instanced mesh receives the
quaternion `(1 / sqrt 2, 0, 0, 1 / sqrt 2)`, which differs from the
identity. -/
theorem renderQuaternion_0010 :
    renderQuaternion ⟨0, 0, 10⟩ =
      ⟨1 / Real.sqrt 2, 0 / Real.sqrt 2, 0 / Real.sqrt 2,
       1 / Real.sqrt 2⟩ := by
  unfold renderQuaternion
  rw [if_pos (by rw [length_0010]; norm_num)]
  have hnorm : (⟨0, 0, 10⟩ : Vec3).normalize = (⟨0, 0, 1⟩ : Vec3) := by
    unfold Vec3.normalize
    rw [if_neg (by rw [length_0010]; norm_num), length_0010]
    simp [Vec3.smul]
  rw [hnorm]
  unfold Quat.setFromUnitVectors
  have hdot : Vec3.dot Vec3.up ⟨0, 0, 1⟩ + 1 = 1 := by
    simp [Vec3.dot, Vec3.up]
  simp only [hdot]
  rw [if_neg (by rw [Quat.jsEpsilon]; norm_num)]
  have hcross : (⟨Vec3.up.y * (1:ℝ) - Vec3.up.z * 0,
      Vec3.up.z * 0 - Vec3.up.x * 1,
      Vec3.up.x * 0 - Vec3.up.y * 0, 1⟩ : Quat) = ⟨1, 0, 0, 1⟩ := by
    simp [Vec3.up]
  have hgoal : Quat.qnormalize ⟨Vec3.up.y * 1 - Vec3.up.z * 0,
      Vec3.up.z * 0 - Vec3.up.x * 1,
      Vec3.up.x * 0 - Vec3.up.y * 0, 1⟩ = Quat.qnormalize ⟨1, 0, 0, 1⟩ := by
    rw [hcross]
  rw [hgoal]
  unfold Quat.qnormalize
  have hlen : Quat.qlength ⟨1, 0, 0, 1⟩ = Real.sqrt 2 := by
    unfold Quat.qlength
    norm_num
  rw [hlen, if_neg (ne_of_gt (Real.sqrt_pos.mpr (by norm_num)))]

/-- Claim C8, counterexample: one agent moving at speed 10 along z is
braked to rest by a policy acceleration of `(0, 0, -10)` over a tick of
`deltaTime = 1`. After the tick its speed is `0 ≤ 0.1`, yet the
orientation handed to the rendering collaborator by
`updateInstancedMesh` is the identity quaternion, not the previous
(pre-tick) orientation `(1 / sqrt 2, 0, 0, 1 / sqrt 2)`: below the
threshold the instanced mesh resets the orientation instead of retaining
it. -/
theorem render_orientation_not_retained :
    (∃ e' : Entity, (managerUpdate
        (fun _ => { acceleration := ⟨0, 0, -10⟩,
                    shouldUpdateRandomVariables := none } : MovementFunction)
        50 7 1 [mkEntity Vec3.zero ⟨0, 0, 10⟩])[0]? = some e' ∧
      e'.velocity.length ≤ (0.1 : ℝ)) ∧
    (updateInstancedMesh (managerUpdate
        (fun _ => { acceleration := ⟨0, 0, -10⟩,
                    shouldUpdateRandomVariables := none } : MovementFunction)
        50 7 1 [mkEntity Vec3.zero ⟨0, 0, 10⟩])).map Prod.snd = [Quat.qId] ∧
    (updateInstancedMesh [mkEntity Vec3.zero ⟨0, 0, 10⟩]).map Prod.snd ≠
      [Quat.qId] := by
  have hrun : managerUpdate
      (fun _ => { acceleration := ⟨0, 0, -10⟩,
                  shouldUpdateRandomVariables := none } : MovementFunction)
      50 7 1 [mkEntity Vec3.zero ⟨0, 0, 10⟩] =
      [{ position := Vec3.zero, velocity := ⟨0, 0, 0⟩,
         randomVariables := [], meshPosition := Vec3.zero,
         meshQuaternion := Quat.qId }] := by
    have hstep : managerUpdate
        (fun _ => { acceleration := ⟨0, 0, -10⟩,
                    shouldUpdateRandomVariables := none } : MovementFunction)
        50 7 1 [mkEntity Vec3.zero ⟨0, 0, 10⟩] =
        [entityUpdate (mkEntity Vec3.zero ⟨0, 0, 10⟩) ⟨0, 0, -10⟩ 1] := rfl
    rw [hstep, entityUpdate_brake]
  refine ⟨?_, ?_, ?_⟩
  · refine ⟨mkEntity Vec3.zero ⟨0, 0, 0⟩, ?_, ?_⟩
    · rw [hrun]
      rfl
    · show Vec3.length ⟨0, 0, 0⟩ ≤ (0.1 : ℝ)
      rw [length_001]
      norm_num
  · rw [hrun]
    show [renderQuaternion ⟨0, 0, 0⟩] = [Quat.qId]
    unfold renderQuaternion
    rw [if_neg (by rw [length_001]; norm_num)]
  · show [renderQuaternion ⟨0, 0, 10⟩] ≠ [Quat.qId]
    rw [renderQuaternion_0010]
    intro h
    have hq := List.singleton_injective h
    have hw : 1 / Real.sqrt 2 = 1 := congrArg Quat.w hq
    have hs2 : Real.sqrt 2 ≠ 0 := ne_of_gt (Real.sqrt_pos.mpr (by norm_num))
    rw [div_eq_one_iff_eq hs2] at hw
    exact sqrt_two_ne_one hw.symm

/-- Claim C8, amended: the orientation exposed to the rendering
collaborator after a tick (`updateInstancedMesh`, run on the post-tick
population) is derived from the normalized velocity direction exactly
when the updated velocity magnitude exceeds 0.1; at or below that
threshold the orientation is reset to the identity quaternion rather
than retained (only the per-entity mesh of `Entity.update`, which is not
the rendered instanced mesh, retains its previous orientation). -/
theorem render_orientation_after_tick (mf : MovementFunction) (R : ℝ)
    (K : ℕ) (dt : ℝ) (es : List Entity) (j : ℕ) :
    (updateInstancedMesh (managerUpdate mf R K dt es))[j]? =
      ((managerUpdate mf R K dt es)[j]?).map fun e =>
        (e.position,
          if e.velocity.length > 0.1
          then Quat.setFromUnitVectors Vec3.up e.velocity.normalize
          else Quat.qId) := by
  unfold updateInstancedMesh renderQuaternion
  rw [List.getElem?_map]

theorem Heap.readVec_allocVec_lt (h : Heap) (v : Vec3) {r : ℕ}
    (hr : r < h.vecSize) : (h.allocVec v).1.readVec r = h.readVec r := by
  unfold allocVec readVec
  exact List.getElem?_append_left hr

theorem Heap.readMap_allocMap_lt (h : Heap) (m : VarMap) {r : ℕ}
    (hr : r < h.mapSize) : (h.allocMap m).1.readMap r = h.readMap r := by
  unfold allocMap readMap
  exact List.getElem?_append_left hr

theorem Heap.allocVec_ref (h : Heap) (v : Vec3) :
    (h.allocVec v).2 = h.vecSize := rfl

theorem Heap.allocMap_ref (h : Heap) (m : VarMap) :
    (h.allocMap m).2 = h.mapSize := rfl

theorem Heap.mapSize_allocMap (h : Heap) (m : VarMap) :
    (h.allocMap m).1.mapSize = h.mapSize + 1 := by
  unfold allocMap mapSize
  simp

theorem Heap.readMap_allocVec (h : Heap) (v : Vec3) (r : ℕ) :
    (h.allocVec v).1.readMap r = h.readMap r := rfl

theorem Heap.readVec_allocMap (h : Heap) (m : VarMap) (r : ℕ) :
    (h.allocMap m).1.readVec r = h.readVec r := rfl

theorem Heap.vecSize_allocVec (h : Heap) (v : Vec3) :
    (h.allocVec v).1.vecSize = h.vecSize + 1 := by
  unfold allocVec vecSize
  simp

theorem Heap.mapSize_allocVec (h : Heap) (v : Vec3) :
    (h.allocVec v).1.mapSize = h.mapSize := rfl

theorem Heap.vecSize_allocMap (h : Heap) (m : VarMap) :
    (h.allocMap m).1.vecSize = h.vecSize := rfl

theorem allocNearbyFold_spec (pos : Vec3) (others : List EntityRefs) :
    ∀ acc : Heap × List NearbyRefs,
      acc.1.vecSize ≤ (others.foldl (allocNearbyStep pos) acc).1.vecSize ∧
      (∀ r, (others.foldl (allocNearbyStep pos) acc).1.readMap r =
        acc.1.readMap r) ∧
      (∀ r < acc.1.vecSize,
        (others.foldl (allocNearbyStep pos) acc).1.readVec r =
          acc.1.readVec r) ∧
      (∀ n ∈ (others.foldl (allocNearbyStep pos) acc).2,
        n ∈ acc.2 ∨ (acc.1.vecSize ≤ n.posRef ∧ acc.1.vecSize ≤ n.velRef)) := by
  induction others with
  | nil =>
    intro acc
    exact ⟨le_refl _, fun _ => rfl, fun _ _ => rfl, fun n hn => Or.inl hn⟩
  | cons er t ih =>
    intro acc
    rw [List.foldl_cons]
    obtain ⟨ihsize, ihmap, ihvec, ihmem⟩ := ih (allocNearbyStep pos acc er)
    have hstep1 : (allocNearbyStep pos acc er).1 =
        ((acc.1.allocVec ((acc.1.readVec er.posRef).getD Vec3.zero)).1.allocVec
          ((acc.1.readVec er.velRef).getD Vec3.zero)).1 := rfl
    have hsize : acc.1.vecSize + 2 = (allocNearbyStep pos acc er).1.vecSize := by
      rw [hstep1, Heap.vecSize_allocVec, Heap.vecSize_allocVec]
    refine ⟨?_, ?_, ?_, ?_⟩
    · calc acc.1.vecSize ≤ acc.1.vecSize + 2 := by omega
        _ = (allocNearbyStep pos acc er).1.vecSize := hsize
        _ ≤ _ := ihsize
    · intro r
      rw [ihmap r, hstep1, Heap.readMap_allocVec, Heap.readMap_allocVec]
    · intro r hr
      rw [ihvec r (by omega), hstep1,
        Heap.readVec_allocVec_lt _ _ (by rw [Heap.vecSize_allocVec]; omega),
        Heap.readVec_allocVec_lt _ _ hr]
    · intro n hn
      rcases ihmem n hn with hmem | hge
      · have hacc2 : (allocNearbyStep pos acc er).2 =
            acc.2 ++ [⟨acc.1.vecSize,
              (acc.1.allocVec ((acc.1.readVec er.posRef).getD Vec3.zero)).1.vecSize,
              Vec3.distanceTo pos ((acc.1.readVec er.posRef).getD Vec3.zero)⟩] := rfl
        rw [hacc2, List.mem_append] at hmem
        rcases hmem with h1 | h2
        · exact Or.inl h1
        · right
          rw [List.mem_singleton] at h2
          subst h2
          refine ⟨le_refl _, ?_⟩
          show acc.1.vecSize ≤
            (acc.1.allocVec ((acc.1.readVec er.posRef).getD Vec3.zero)).1.vecSize
          rw [Heap.vecSize_allocVec]
          omega
      · right
        omega

theorem getStateRefs_spec (h : Heap) (er : EntityRefs) :
    (getStateRefs h er).2.posRef = h.vecSize ∧
    (getStateRefs h er).2.velRef = h.vecSize + 1 ∧
    (getStateRefs h er).2.varsRef = h.mapSize ∧
    (getStateRefs h er).1.vecSize = h.vecSize + 2 ∧
    (getStateRefs h er).1.mapSize = h.mapSize + 1 ∧
    (∀ r < h.vecSize, (getStateRefs h er).1.readVec r = h.readVec r) ∧
    (∀ r < h.mapSize, (getStateRefs h er).1.readMap r = h.readMap r) := by
  have hst : getStateRefs h er =
      ((((h.allocVec ((h.readVec er.posRef).getD Vec3.zero)).1.allocVec
          ((h.readVec er.velRef).getD Vec3.zero)).1.allocMap
            ((h.readMap er.varsRef).getD [])).1,
        { posRef := (h.allocVec ((h.readVec er.posRef).getD Vec3.zero)).2,
          velRef := ((h.allocVec ((h.readVec er.posRef).getD Vec3.zero)).1.allocVec
            ((h.readVec er.velRef).getD Vec3.zero)).2,
          varsRef := (((h.allocVec ((h.readVec er.posRef).getD Vec3.zero)).1.allocVec
            ((h.readVec er.velRef).getD Vec3.zero)).1.allocMap
              ((h.readMap er.varsRef).getD [])).2 }) := rfl
  rw [hst]
  refine ⟨rfl, ?_, ?_, ?_, ?_, ?_, ?_⟩
  · dsimp only
    rw [Heap.allocVec_ref, Heap.vecSize_allocVec]
  · dsimp only
    rw [Heap.allocMap_ref, Heap.mapSize_allocVec, Heap.mapSize_allocVec]
  · dsimp only
    rw [Heap.vecSize_allocMap, Heap.vecSize_allocVec, Heap.vecSize_allocVec]
  · dsimp only
    rw [Heap.mapSize_allocMap, Heap.mapSize_allocVec, Heap.mapSize_allocVec]
  · intro r hr
    dsimp only
    rw [Heap.readVec_allocMap,
      Heap.readVec_allocVec_lt _ _ (by rw [Heap.vecSize_allocVec]; omega),
      Heap.readVec_allocVec_lt _ _ hr]
  · intro r hr
    dsimp only
    rw [Heap.readMap_allocMap_lt _ _
        (by rw [Heap.mapSize_allocVec, Heap.mapSize_allocVec]; exact hr),
      Heap.readMap_allocVec, Heap.readMap_allocVec]

theorem applyWrites_readVec_ne (ws : List HeapWrite) :
    ∀ (h0 : Heap) (r : ℕ),
      (∀ rv v, HeapWrite.vec rv v ∈ ws → rv ≠ r) →
      (applyWrites h0 ws).readVec r = h0.readVec r := by
  induction ws with
  | nil => intro h0 r _; rfl
  | cons w t ih =>
    intro h0 r hw
    rw [applyWrites, List.foldl_cons]
    cases w with
    | vec rv v =>
      have h1 : (applyWrites (h0.writeVec rv v) t).readVec r =
          (h0.writeVec rv v).readVec r :=
        ih _ r fun rv' v' hm => hw rv' v' (List.mem_cons_of_mem _ hm)
      rw [show List.foldl _ (h0.writeVec rv v) t = applyWrites (h0.writeVec rv v) t
          from rfl, h1]
      unfold Heap.writeVec Heap.readVec
      exact List.getElem?_set_ne (hw rv v (List.mem_cons_self _ _))
    | map rm m =>
      have h1 : (applyWrites (h0.writeMap rm m) t).readVec r =
          (h0.writeMap rm m).readVec r :=
        ih _ r fun rv' v' hm => hw rv' v' (List.mem_cons_of_mem _ hm)
      rw [show List.foldl _ (h0.writeMap rm m) t = applyWrites (h0.writeMap rm m) t
          from rfl, h1]
      rfl

theorem applyWrites_readMap_ne (ws : List HeapWrite) :
    ∀ (h0 : Heap) (r : ℕ),
      (∀ rm m, HeapWrite.map rm m ∈ ws → rm ≠ r) →
      (applyWrites h0 ws).readMap r = h0.readMap r := by
  induction ws with
  | nil => intro h0 r _; rfl
  | cons w t ih =>
    intro h0 r hw
    rw [applyWrites, List.foldl_cons]
    cases w with
    | vec rv v =>
      have h1 : (applyWrites (h0.writeVec rv v) t).readMap r =
          (h0.writeVec rv v).readMap r :=
        ih _ r fun rm' m' hm => hw rm' m' (List.mem_cons_of_mem _ hm)
      rw [show List.foldl _ (h0.writeVec rv v) t = applyWrites (h0.writeVec rv v) t
          from rfl, h1]
      rfl
    | map rm m =>
      have h1 : (applyWrites (h0.writeMap rm m) t).readMap r =
          (h0.writeMap rm m).readMap r :=
        ih _ r fun rm' m' hm => hw rm' m' (List.mem_cons_of_mem _ hm)
      rw [show List.foldl _ (h0.writeMap rm m) t = applyWrites (h0.writeMap rm m) t
          from rfl, h1]
      unfold Heap.writeMap Heap.readMap
      exact List.getElem?_set_ne (hw rm m (List.mem_cons_self _ _))

/-- Claim C10: the `MovementInput` handed to the policy is built entirely
from defensive copies — the snapshot's position, velocity and variable
map and every neighbor's position and velocity live in freshly allocated
cells, disjoint from every cell allocated before the call — so any
sequence of mutations a policy performs on objects reachable from its
input leaves every pre-existing cell, in particular every agent's stored
position, velocity and variable map, unchanged. -/
theorem movement_input_defensive_copies (h : Heap) (er : EntityRefs)
    (others : List EntityRefs) (dt : ℝ) :
    (∀ r ∈ inputVecRefs (buildMovementInput h er others dt).2,
      h.vecSize ≤ r) ∧
    (∀ r ∈ inputMapRefs (buildMovementInput h er others dt).2,
      h.mapSize ≤ r) ∧
    (∀ r < h.vecSize,
      (buildMovementInput h er others dt).1.readVec r = h.readVec r) ∧
    (∀ r < h.mapSize,
      (buildMovementInput h er others dt).1.readMap r = h.readMap r) ∧
    (∀ ws : List HeapWrite,
      ConfinedTo (buildMovementInput h er others dt).2 ws →
      ∀ er' : EntityRefs, er'.posRef < h.vecSize → er'.velRef < h.vecSize →
        er'.varsRef < h.mapSize →
        (applyWrites (buildMovementInput h er others dt).1 ws).readVec
            er'.posRef = h.readVec er'.posRef ∧
        (applyWrites (buildMovementInput h er others dt).1 ws).readVec
            er'.velRef = h.readVec er'.velRef ∧
        (applyWrites (buildMovementInput h er others dt).1 ws).readMap
            er'.varsRef = h.readMap er'.varsRef) := by
  obtain ⟨hpos, hvel, hvars, hvsz, hmsz, hrv, hrm⟩ := getStateRefs_spec h er
  obtain ⟨hfsz, hfmap, hfvec, hfmem⟩ :=
    allocNearbyFold_spec ((h.readVec er.posRef).getD Vec3.zero) others
      ((getStateRefs h er).1, [])
  have hrefs : inputVecRefs (buildMovementInput h er others dt).2 =
      (getStateRefs h er).2.posRef :: (getStateRefs h er).2.velRef ::
        ((others.foldl
            (allocNearbyStep ((h.readVec er.posRef).getD Vec3.zero))
            ((getStateRefs h er).1, [])).2.map
          fun n => [n.posRef, n.velRef]).flatten := rfl
  have hheap : (buildMovementInput h er others dt).1 =
      (others.foldl (allocNearbyStep ((h.readVec er.posRef).getD Vec3.zero))
        ((getStateRefs h er).1, [])).1 := rfl
  have hfreshv : ∀ r ∈ inputVecRefs (buildMovementInput h er others dt).2,
      h.vecSize ≤ r := by
    intro r hr
    rw [hrefs] at hr
    rcases List.mem_cons.mp hr with h1 | hr
    · rw [h1, hpos]
    · rcases List.mem_cons.mp hr with h2 | hr
      · rw [h2, hvel]; omega
      · rw [List.mem_flatten] at hr
        obtain ⟨l, hl, hrl⟩ := hr
        rw [List.mem_map] at hl
        obtain ⟨n, hn, hln⟩ := hl
        rcases hfmem n hn with habs | hge
        · simp at habs
        · rw [← hln] at hrl
          have hge2 : (getStateRefs h er).1.vecSize ≤ n.posRef ∧
              (getStateRefs h er).1.vecSize ≤ n.velRef := hge
          rw [hvsz] at hge2
          rcases List.mem_cons.mp hrl with hp | hrl2
          · omega
          · rw [List.mem_singleton] at hrl2
            omega
  have hfreshm : ∀ r ∈ inputMapRefs (buildMovementInput h er others dt).2,
      h.mapSize ≤ r := by
    intro r hr
    have : inputMapRefs (buildMovementInput h er others dt).2 =
        [(getStateRefs h er).2.varsRef] := rfl
    rw [this, List.mem_singleton] at hr
    rw [hr, hvars]
  have hkeepv : ∀ r < h.vecSize,
      (buildMovementInput h er others dt).1.readVec r = h.readVec r := by
    intro r hr
    rw [hheap, hfvec r (by dsimp only; omega)]
    exact hrv r hr
  have hkeepm : ∀ r < h.mapSize,
      (buildMovementInput h er others dt).1.readMap r = h.readMap r := by
    intro r hr
    rw [hheap, hfmap r]
    exact hrm r hr
  refine ⟨hfreshv, hfreshm, hkeepv, hkeepm, ?_⟩
  intro ws hconf er' hp hv hm
  have hwv : ∀ rv v, HeapWrite.vec rv v ∈ ws → ∀ r0, r0 < h.vecSize → rv ≠ r0 := by
    intro rv v hmem r0 hr0
    have := (hconf _ hmem).1 rv v rfl
    have := hfreshv rv this
    omega
  have hwm : ∀ rm m, HeapWrite.map rm m ∈ ws → ∀ r0, r0 < h.mapSize → rm ≠ r0 := by
    intro rm m hmem r0 hr0
    have := (hconf _ hmem).2 rm m rfl
    have := hfreshm rm this
    omega
  refine ⟨?_, ?_, ?_⟩
  · rw [applyWrites_readVec_ne ws _ _ fun rv v hmem => hwv rv v hmem _ hp]
    exact hkeepv _ hp
  · rw [applyWrites_readVec_ne ws _ _ fun rv v hmem => hwv rv v hmem _ hv]
    exact hkeepv _ hv
  · rw [applyWrites_readMap_ne ws _ _ fun rm m hmem => hwm rm m hmem _ hm]
    exact hkeepm _ hm

end Murmuration
